import Mathlib

/-!
Verification of the goEmail message builder (goEmail.go).

Go strings are modelled as lists of characters (`GoStr`); Go's `len`,
`+` on strings, `strings.Split` and `strings.Join` become list length,
list append and the functions below.  The external collaborators
(`crypto/sha1` + `fmt` used by `MessageID`, the quoted-printable encoder
package, and `net/smtp.SendMail`) are not part of this repository; they
are modelled from the design document and marked as such.
-/

namespace GoEmail

/-- Shallow embedding of a Go string as its character sequence. -/
abbrev GoStr := List Char

/-- The CRLF line terminator used throughout the wire format. -/
def crlf : GoStr := ['\r', '\n']

/-- Embedding of Go `strings.Split(s, " ")`: split on every single space,
keeping empty fields; the empty string yields one empty field. -/
def splitOnSpace : GoStr → List GoStr
  | [] => [[]]
  | c :: rest =>
    if c = ' ' then [] :: splitOnSpace rest
    else
      match splitOnSpace rest with
      | [] => [[c]]
      | w :: ws => (c :: w) :: ws

/-- Embedding of Go `strings.Join(l, sep)`. -/
def goJoin : List GoStr → GoStr → GoStr
  | [], _ => []
  | [x], _ => x
  | x :: xs, sep => x ++ sep ++ goJoin xs sep

/-- The word loop of `foldString` (goEmail.go:133-147): `folded` is the
`foldedBuffer`, `line` the `lineBuffer`, `lineLength` the running length. -/
def foldLoop (maxLength : Nat) : List GoStr → GoStr → GoStr → Nat → GoStr
  | [], folded, line, _ => folded ++ line ++ crlf
  | w :: ws, folded, line, lineLength =>
    if w.length + lineLength + 1 ≤ maxLength then
      foldLoop maxLength ws folded (line ++ w ++ [' ']) (lineLength + w.length + 1)
    else
      foldLoop maxLength ws (folded ++ line ++ crlf ++ [' ']) (w ++ [' ']) (w.length + 1)

/-- Embedding of `foldString` (goEmail.go:128-151): fold a string by CRLF
plus a leading continuation space where it overlaps `maxLength`. -/
def foldString (maxLength : Nat) (pfx s : GoStr) : GoStr :=
  foldLoop maxLength (splitOnSpace s) [] pfx pfx.length

/-- Embedding of the `TransferEncoder` interface (goEmail.go:37-40). -/
structure TransferEncoder where
  Encode : GoStr → GoStr
  TransferEncodingType : GoStr

/-- Embedding of the `emailBody` struct (goEmail.go:66-68). -/
structure EmailBody where
  mimeType : GoStr
  bodyText : GoStr
deriving DecidableEq

/-- Embedding of the `Email` struct (goEmail.go:16-21). -/
structure Email where
  To : List GoStr
  Cc : List GoStr
  Bcc : List GoStr
  From : GoStr
  Subject : GoStr
  emailBodies : List EmailBody
  encoder : TransferEncoder

/-- Embedding of `FormatMailbox` (goEmail.go:44-49). -/
def FormatMailbox (address name : GoStr) : GoStr :=
  if name = [] then address
  else name ++ (" <".data) ++ address ++ (">".data)

/-- Embedding of `AddRecipient` (goEmail.go:52-54). -/
def AddRecipient (email : Email) (mailbox : GoStr) : Email :=
  { email with To := email.To ++ [mailbox] }

/-- Embedding of `AddCc` (goEmail.go:57-59). -/
def AddCc (email : Email) (mailbox : GoStr) : Email :=
  { email with Cc := email.Cc ++ [mailbox] }

/-- Embedding of `AddBcc` (goEmail.go:62-64). -/
def AddBcc (email : Email) (mailbox : GoStr) : Email :=
  { email with Bcc := email.Bcc ++ [mailbox] }

/-- Embedding of `AddBody` (goEmail.go:71-73). -/
def AddBody (email : Email) (mimeType body : GoStr) : Email :=
  { email with emailBodies := email.emailBodies ++ [⟨mimeType, body⟩] }

/-- Embedding of `AddHtmlBody` (goEmail.go:76-78). -/
def AddHtmlBody (email : Email) (body : GoStr) : Email :=
  AddBody email ("text/html; charset=utf-8".data) body

/-- Embedding of `AddTextBody` (goEmail.go:81-83). -/
def AddTextBody (email : Email) (body : GoStr) : Email :=
  AddBody email ("text/plain; charset=utf-8".data) body

/-- Lower-case hexadecimal digit, as produced by Go's `%x` verb. -/
def hexDigitLower (n : Nat) : Char :=
  if n < 10 then Char.ofNat (48 + n) else Char.ofNat (87 + n)

/-- Modelled from the spec: `MessageID` feeds `fmt.Sprintf("%+v", e)` to
`crypto/sha1`; both are outside this repository.  Per §4.3 the digest is
only required to be a deterministic, fixed-length (160-bit, 40 hex
character) digest of the serialized state, the exact algorithm being
implementation-defined; we use a deterministic 160-bit polynomial rolling
hash rendered as 40 lower-case hex digits. -/
def specDigest (s : GoStr) : GoStr :=
  let m : Nat := 2 ^ 160
  let h : Nat := s.foldl (fun a c => (a * 131 + c.toNat + 1) % m) 7
  (List.range 40).map (fun i => hexDigitLower (h / 16 ^ (39 - i) % 16))

/-- Modelled from the spec: the textual representation of the full message
state that `fmt.Sprintf("%+v", e)` produces is implementation-defined
(§4.3, §9); this deterministic serialization covers every field of the
message, including the lists and body parts. -/
def serializeEmail (e : Email) : GoStr :=
  ("&[To:[".data) ++ goJoin e.To (" ".data)
    ++ ("] Cc:[".data) ++ goJoin e.Cc (" ".data)
    ++ ("] Bcc:[".data) ++ goJoin e.Bcc (" ".data)
    ++ ("] From:".data) ++ e.From
    ++ (" Subject:".data) ++ e.Subject
    ++ (" emailBodies:[".data)
    ++ goJoin (e.emailBodies.map
        (fun b => ("[".data) ++ b.mimeType ++ (" ".data) ++ b.bodyText ++ ("]".data)))
        (" ".data)
    ++ ("] encoder:".data) ++ e.encoder.TransferEncodingType ++ ("]".data)

/-- Embedding of `MessageID` (goEmail.go:87-91): the digest of the textual
dump of the entire email object. -/
def MessageID (e : Email) : GoStr :=
  specDigest (serializeEmail e)

/-- Modelled from the spec: the quoted-printable encoder lives in the
external `quotedPrintable` package.  Per §4.4 and §8 it escapes `=` and
non-printable bytes as `=XX` hex and leaves other printable ASCII (and
spaces) untouched; soft line wrapping is omitted here, which agrees with
the spec on bodies shorter than the wrap width (§8). -/
def qpEncodeChar (c : Char) : GoStr :=
  if c = '=' then ("=3D".data)
  else if c = ' ' ∨ (33 ≤ c.toNat ∧ c.toNat ≤ 126) then [c]
  else
    ['=', hexDigitUpper (c.toNat / 16 % 16), hexDigitUpper (c.toNat % 16)]
where
  /-- Upper-case hexadecimal digit used by quoted-printable escapes. -/
  hexDigitUpper (n : Nat) : Char :=
    if n < 10 then Char.ofNat (48 + n) else Char.ofNat (55 + n)

/-- Modelled from the spec: the `Encode` operation of the external
quoted-printable encoder, applied byte by byte. -/
def qpEncode (s : GoStr) : GoStr :=
  (s.map qpEncodeChar).flatten

/-- Modelled from the spec: the concrete quoted-printable transfer encoder
(`quotedPrintable.NewEncoder()`), whose label is `quoted-printable`. -/
def quotedPrintableEncoder : TransferEncoder :=
  ⟨qpEncode, "quoted-printable".data⟩

/-- Embedding of `NewEmailWithEncoder` (goEmail.go:30-32). -/
def NewEmailWithEncoder (enc : TransferEncoder) : Email :=
  ⟨[], [], [], [], [], [], enc⟩

/-- Embedding of `NewEmail` (goEmail.go:24-27): default encoder is the
quoted-printable encoder. -/
def NewEmail : Email :=
  NewEmailWithEncoder quotedPrintableEncoder

/-- Embedding of `formattedEmail.addHeader` (goEmail.go:107-111), with the
buffer passed explicitly: append the folded header when the value is
non-empty, otherwise leave the buffer unchanged. -/
def addHeader (buf : GoStr) (field value : GoStr) : GoStr :=
  if value ≠ [] then
    buf ++ foldString 78 (field ++ (": ".data)) value
  else buf

/-- Embedding of `formattedEmail.addBody` (goEmail.go:115-124), with the
buffer passed explicitly; `bnd` is the formatted email's boundary field
(already prefixed with CRLF and the two dashes). -/
def addBody (enc : TransferEncoder) (bnd : GoStr) (buf : GoStr) (b : EmailBody) : GoStr :=
  addHeader
      (addHeader (buf ++ bnd ++ crlf) ("Content-Type".data) b.mimeType)
      ("Content-Transfer-Encoding".data) enc.TransferEncodingType
    ++ crlf ++ enc.Encode b.bodyText ++ crlf

/-- Embedding of `Format` (goEmail.go:155-175).  `now` stands for the
string `time.Now().Format(time.RFC1123Z)` produced by the clock. -/
def Format (e : Email) (now : GoStr) : GoStr :=
  let boundary := ("=_".data) ++ MessageID e
  let fBoundary := ("\r\n--".data) ++ boundary
  let b1 := addHeader [] ("To".data) (goJoin e.To (", ".data))
  let b2 := addHeader b1 ("Cc".data) (goJoin e.Cc (", ".data))
  let b3 := addHeader b2 ("Bcc".data) (goJoin e.Bcc (", ".data))
  let b4 := addHeader b3 ("From".data) e.From
  let b5 := addHeader b4 ("Subject".data) e.Subject
  let b6 := addHeader b5 ("Date".data) now
  let b7 := addHeader b6 ("Content-Type".data)
    (("multipart/alternative; boundary=\"".data) ++ boundary ++ ("\"".data))
  let b8 := addHeader b7 ("MIME-Version".data) ("1.0".data)
  e.emailBodies.foldl (addBody e.encoder fBoundary) b8

/-- Embedding of `Send` (goEmail.go:178-185): `sendMail` stands for the
external `smtp.SendMail` collaborator (address, auth, sender, recipient
list, message bytes; `none` is Go's `nil` error).  `now` is the clock
reading used by the inner `Format` call. -/
def Send {α ε : Type} (sendMail : GoStr → α → GoStr → List GoStr → GoStr → Option ε)
    (e : Email) (addr : GoStr) (a : α) (now : GoStr) : Option ε :=
  sendMail addr a e.From e.To (Format e now)

/-! ### Support definitions for stating the claims -/

/-- Whether `pat` is an initial segment of `s`. -/
def startsWith : GoStr → GoStr → Bool
  | [], _ => true
  | _ :: _, [] => false
  | p :: ps, c :: cs => p == c && startsWith ps cs

/-- Whether `pat` occurs contiguously inside `s`. -/
def hasSub (pat : GoStr) : GoStr → Bool
  | [] => startsWith pat []
  | c :: rest => startsWith pat (c :: rest) || hasSub pat rest

/-- Number of positions of `s` at which `pat` occurs contiguously. -/
def countSub (pat : GoStr) : GoStr → Nat
  | [] => if startsWith pat [] then 1 else 0
  | c :: rest => (if startsWith pat (c :: rest) then 1 else 0) + countSub pat rest

/-- The logical lines produced by the word loop of `foldString`, without
the CRLF terminators and without the leading continuation spaces; mirrors
`foldLoop` but records each flushed `lineBuffer` instead of
concatenating. -/
def foldLinesLoop (maxLength : Nat) : List GoStr → GoStr → Nat → List GoStr
  | [], line, _ => [line]
  | w :: ws, line, lineLength =>
    if w.length + lineLength + 1 ≤ maxLength then
      foldLinesLoop maxLength ws (line ++ w ++ [' ']) (lineLength + w.length + 1)
    else
      line :: foldLinesLoop maxLength ws (w ++ [' ']) (w.length + 1)

/-- The emitted lines of `foldString maxLength pfx s`, leading
continuation spaces excluded. -/
def foldLines (maxLength : Nat) (pfx s : GoStr) : List GoStr :=
  foldLinesLoop maxLength (splitOnSpace s) pfx pfx.length

/-- Reassemble folded lines the way `foldString` emits them: every line
but the last is followed by CRLF and the leading continuation space of
the next line, the last line by the final CRLF. -/
def joinFolded : List GoStr → GoStr
  | [] => crlf
  | [l] => l ++ crlf
  | l :: l2 :: ls => l ++ crlf ++ [' '] ++ joinFolded (l2 :: ls)

/-- Delete every `CRLF + space` continuation marker from a folded
string (RFC-style unfolding of the folder's output). -/
def deleteMarkers : GoStr → GoStr
  | '\r' :: '\n' :: ' ' :: rest => deleteMarkers rest
  | c :: rest => c :: deleteMarkers rest
  | [] => []

/-- Each word of a split, with the single trailing space the folder's
word loop appends after it. -/
def flatWords : List GoStr → GoStr
  | [] => []
  | w :: ws => w ++ [' '] ++ flatWords ws

/-- Following the spec's words (§8): replace every `CRLF + space`
continuation marker by a single space ("continuation markers removed,
single spaces restored"). -/
def restoreSpaces : GoStr → GoStr
  | '\r' :: '\n' :: ' ' :: rest => ' ' :: restoreSpaces rest
  | c :: rest => c :: restoreSpaces rest
  | [] => []

/-- Whether a string ends in CRLF. -/
def endsCrlf (s : GoStr) : Bool :=
  match s.reverse with
  | '\n' :: '\r' :: _ => true
  | _ => false

/-- Following the spec's words (§8): re-join a folded header value by
restoring single spaces for the continuation markers and dropping the
final CRLF. -/
def specRejoin (s : GoStr) : GoStr :=
  let t := restoreSpaces s
  if endsCrlf t then t.dropLast.dropLast else t

/-- Following the spec's words (§8): internal whitespace normalized to
single spaces (runs of spaces collapsed to one). -/
def normalizeWs : GoStr → GoStr
  | ' ' :: ' ' :: rest => normalizeWs (' ' :: rest)
  | c :: rest => c :: normalizeWs rest
  | [] => []

/-- Lower-case hexadecimal digit characters. -/
def isHexDigitChar (c : Char) : Bool :=
  ('0' ≤ c && c ≤ '9') || ('a' ≤ c && c ≤ 'f')

/-- The top-level headers of `Format`, as (field, value) pairs in the
order the source emits them (goEmail.go:161-168). -/
def headerPairs (e : Email) (now : GoStr) : List (GoStr × GoStr) :=
  [(("To".data), goJoin e.To (", ".data)),
   (("Cc".data), goJoin e.Cc (", ".data)),
   (("Bcc".data), goJoin e.Bcc (", ".data)),
   (("From".data), e.From),
   (("Subject".data), e.Subject),
   (("Date".data), now),
   (("Content-Type".data),
     ("multipart/alternative; boundary=\"".data) ++ (("=_".data) ++ MessageID e) ++ ("\"".data)),
   (("MIME-Version".data), ("1.0".data))]

/-- What `addHeader` appends to the buffer for one (field, value) pair:
the folded header line when the value is non-empty, nothing otherwise. -/
def renderHeader (p : GoStr × GoStr) : GoStr :=
  if p.2 ≠ [] then foldString 78 (p.1 ++ (": ".data)) p.2 else []

/-- What `addBody` appends to the buffer for one body part. -/
def renderPart (enc : TransferEncoder) (bnd : GoStr) (b : EmailBody) : GoStr :=
  bnd ++ crlf
    ++ renderHeader (("Content-Type".data), b.mimeType)
    ++ renderHeader (("Content-Transfer-Encoding".data), enc.TransferEncodingType)
    ++ crlf ++ enc.Encode b.bodyText ++ crlf

/-- The example message of spec §8: To=[a@x.com], From=b@x.com,
Subject=Hi, one plain-text body Hello, default encoder. -/
def exampleEmail : Email :=
  AddTextBody
    { (AddRecipient NewEmail ("a@x.com".data)) with
        From := ("b@x.com".data), Subject := ("Hi".data) }
    ("Hello".data)

/-- A fixed clock reading (RFC 1123Z form) for the concrete examples. -/
def exampleNow : GoStr := "Sat, 11 Oct 2026 12:00:00 +0000".data

/-- The `formattedEmail` struct (goEmail.go:95-99), used by the
state-threaded version of `Format`. -/
structure FormattedEmail where
  buffer : GoStr
  boundary : GoStr
  encoder : TransferEncoder

/-- The `addHeader` method as a transformer of the formatted email. -/
def addHeaderM (fe : FormattedEmail) (field value : GoStr) : FormattedEmail :=
  { fe with buffer := addHeader fe.buffer field value }

/-- The `addBody` method as a transformer of the formatted email. -/
def addBodyM (fe : FormattedEmail) (b : EmailBody) : FormattedEmail :=
  { fe with buffer := addBody fe.encoder fe.boundary fe.buffer b }

/-- Statement-by-statement embedding of `Format` (goEmail.go:155-175)
with the receiver threaded through: the pair holds the returned buffer
and the state of the receiver `email` after the call.  Every statement
of the source writes only the local `fEmail` (or a local variable), so
the receiver component is the one the method was entered with. -/
def FormatRun (e : Email) (now : GoStr) : GoStr × Email :=
  let fe0 : FormattedEmail := ⟨[], [], e.encoder⟩
  let boundary := ("=_".data) ++ MessageID e
  let fe1 := { fe0 with boundary := ("\r\n--".data) ++ boundary }
  let fe2 := addHeaderM fe1 ("To".data) (goJoin e.To (", ".data))
  let fe3 := addHeaderM fe2 ("Cc".data) (goJoin e.Cc (", ".data))
  let fe4 := addHeaderM fe3 ("Bcc".data) (goJoin e.Bcc (", ".data))
  let fe5 := addHeaderM fe4 ("From".data) e.From
  let fe6 := addHeaderM fe5 ("Subject".data) e.Subject
  let fe7 := addHeaderM fe6 ("Date".data) now
  let fe8 := addHeaderM fe7 ("Content-Type".data)
    (("multipart/alternative; boundary=\"".data) ++ boundary ++ ("\"".data))
  let fe9 := addHeaderM fe8 ("MIME-Version".data) ("1.0".data)
  let fe10 := e.emailBodies.foldl addBodyM fe9
  (fe10.buffer, e)

/-! ### Helper lemmas -/

theorem addHeader_eq (buf field value : GoStr) :
    addHeader buf field value = buf ++ renderHeader (field, value) := by
  simp only [addHeader, renderHeader]
  split <;> simp_all

theorem addBody_eq (enc : TransferEncoder) (bnd buf : GoStr) (b : EmailBody) :
    addBody enc bnd buf b = buf ++ renderPart enc bnd b := by
  simp [addBody, addHeader_eq, renderPart, List.append_assoc]

theorem foldl_addBody (enc : TransferEncoder) (bnd : GoStr) (l : List EmailBody)
    (buf : GoStr) :
    l.foldl (addBody enc bnd) buf = buf ++ (l.map (renderPart enc bnd)).flatten := by
  induction l generalizing buf with
  | nil => simp
  | cons b bs ih => simp [addBody_eq, ih, List.append_assoc]

theorem foldLoop_ends_crlf (ml : Nat) (ws : List GoStr) (folded line : GoStr) (len : Nat) :
    ∃ t, foldLoop ml ws folded line len = t ++ crlf := by
  induction ws generalizing folded line len with
  | nil => exact ⟨folded ++ line, by simp [foldLoop, List.append_assoc]⟩
  | cons w ws ih =>
    simp only [foldLoop]
    split
    · exact ih _ _ _
    · exact ih _ _ _

theorem foldString_ne_nil (ml : Nat) (pfx s : GoStr) : foldString ml pfx s ≠ [] := by
  obtain ⟨t, ht⟩ := foldLoop_ends_crlf ml (splitOnSpace s) [] pfx pfx.length
  simp [foldString, ht, crlf]

theorem renderHeader_ne_nil_iff (p : GoStr × GoStr) :
    renderHeader p ≠ [] ↔ p.2 ≠ [] := by
  simp only [renderHeader]
  split
  · simp_all [foldString_ne_nil]
  · simp_all

theorem foldLoop_folded (ml : Nat) (ws : List GoStr) (folded line : GoStr) (len : Nat) :
    foldLoop ml ws folded line len = folded ++ foldLoop ml ws [] line len := by
  induction ws generalizing folded line len with
  | nil => simp [foldLoop, List.append_assoc]
  | cons w ws ih =>
    simp only [foldLoop]
    split
    · exact ih _ _ _
    · rw [ih (folded ++ line ++ crlf ++ [' ']), ih ([] ++ line ++ crlf ++ [' '])]
      simp [List.append_assoc]

theorem foldLinesLoop_ne_nil (ml : Nat) (ws : List GoStr) (line : GoStr) (len : Nat) :
    foldLinesLoop ml ws line len ≠ [] := by
  induction ws generalizing line len with
  | nil => simp [foldLinesLoop]
  | cons w ws ih =>
    simp only [foldLinesLoop]
    split
    · exact ih _ _
    · simp

theorem foldLoop_eq_joinFolded (ml : Nat) (ws : List GoStr) (line : GoStr) (len : Nat) :
    foldLoop ml ws [] line len = joinFolded (foldLinesLoop ml ws line len) := by
  induction ws generalizing line len with
  | nil => simp [foldLoop, foldLinesLoop, joinFolded]
  | cons w ws ih =>
    simp only [foldLoop, foldLinesLoop]
    split
    · exact ih _ _
    · rw [foldLoop_folded, ih]
      obtain ⟨l2, ls, hx⟩ :=
        List.exists_cons_of_ne_nil (foldLinesLoop_ne_nil ml ws (w ++ [' ']) (w.length + 1))
      rw [hx]
      simp [joinFolded, List.append_assoc]

theorem foldString_eq_joinFolded (ml : Nat) (pfx s : GoStr) :
    foldString ml pfx s = joinFolded (foldLines ml pfx s) := by
  simp [foldString, foldLines, foldLoop_eq_joinFolded]

theorem splitOnSpace_ne_nil (s : GoStr) : splitOnSpace s ≠ [] := by
  induction s with
  | nil => simp [splitOnSpace]
  | cons c rest ih =>
    simp only [splitOnSpace]
    split
    · simp
    · split <;> simp

theorem mem_splitOnSpace (s : GoStr) :
    ∀ w ∈ splitOnSpace s, ∀ c ∈ w, c ∈ s ∧ c ≠ ' ' := by
  induction s with
  | nil =>
    intro w hw
    simp [splitOnSpace] at hw
    simp [hw]
  | cons a rest ih =>
    intro w hw c hc
    simp only [splitOnSpace] at hw
    by_cases ha : a = ' '
    · rw [if_pos ha] at hw
      rcases List.mem_cons.1 hw with h | h
      · subst h; simp at hc
      · obtain ⟨hcr, hcs⟩ := ih w h c hc
        exact ⟨List.mem_cons_of_mem _ hcr, hcs⟩
    · rw [if_neg ha] at hw
      obtain ⟨w0, ws, hEq⟩ := List.exists_cons_of_ne_nil (splitOnSpace_ne_nil rest)
      rw [hEq] at hw
      simp only at hw
      rcases List.mem_cons.1 hw with h | h
      · subst h
        rcases List.mem_cons.1 hc with h2 | h2
        · subst h2; exact ⟨List.mem_cons_self _ _, ha⟩
        · obtain ⟨hcr, hcs⟩ := ih w0 (hEq ▸ List.mem_cons_self _ _) c h2
          exact ⟨List.mem_cons_of_mem _ hcr, hcs⟩
      · obtain ⟨hcr, hcs⟩ := ih w (hEq ▸ List.mem_cons_of_mem _ h) c hc
        exact ⟨List.mem_cons_of_mem _ hcr, hcs⟩

theorem deleteMarkers_marker (l : GoStr) :
    deleteMarkers ('\r' :: '\n' :: ' ' :: l) = deleteMarkers l := rfl

theorem deleteMarkers_cons {c : Char} (l : GoStr) (hc : c ≠ '\r') :
    deleteMarkers (c :: l) = c :: deleteMarkers l := by
  rw [deleteMarkers.eq_def]
  split
  · rename_i h
    simp only [List.cons.injEq] at h
    exact absurd h.1 hc
  · rename_i h
    simp only [List.cons.injEq] at h
    rw [h.1, h.2]
  · rename_i h
    simp at h

theorem deleteMarkers_append {xs : GoStr} (t : GoStr) (h : '\r' ∉ xs) :
    deleteMarkers (xs ++ t) = xs ++ deleteMarkers t := by
  induction xs with
  | nil => simp
  | cons c cs ih =>
    simp only [List.mem_cons, not_or] at h
    rw [List.cons_append, deleteMarkers_cons _ (fun hh => h.1 hh.symm), ih h.2]
    rfl

theorem deleteMarkers_crlf : deleteMarkers crlf = crlf := by decide

theorem deleteMarkers_foldLoop (ml : Nat) (ws : List GoStr) (line : GoStr) (len : Nat)
    (hline : '\r' ∉ line) (hws : ∀ w ∈ ws, '\r' ∉ w) :
    deleteMarkers (foldLoop ml ws [] line len) = line ++ flatWords ws ++ crlf := by
  induction ws generalizing line len with
  | nil =>
    simp only [foldLoop, flatWords, List.nil_append, List.append_nil]
    rw [deleteMarkers_append _ hline, deleteMarkers_crlf]
  | cons w ws ih =>
    simp only [foldLoop]
    split
    · rename_i hfit
      have hline2 : '\r' ∉ line ++ w ++ [' '] := by
        simp only [List.mem_append, List.mem_singleton, not_or]
        exact ⟨⟨hline, hws w (List.mem_cons_self _ _)⟩, by decide⟩
      rw [ih _ _ hline2 (fun w2 hw2 => hws w2 (List.mem_cons_of_mem _ hw2))]
      simp [flatWords, List.append_assoc]
    · rename_i hfit
      rw [foldLoop_folded]
      have hshape : ([] ++ line ++ crlf ++ [' ']) ++ foldLoop ml ws [] (w ++ [' ']) (w.length + 1)
          = line ++ ('\r' :: '\n' :: ' ' :: foldLoop ml ws [] (w ++ [' ']) (w.length + 1)) := by
        simp [crlf, List.append_assoc]
      rw [hshape, deleteMarkers_append _ hline, deleteMarkers_marker]
      have hw2 : '\r' ∉ w ++ [' '] := by
        simp only [List.mem_append, List.mem_singleton, not_or]
        exact ⟨hws w (List.mem_cons_self _ _), by decide⟩
      rw [ih _ _ hw2 (fun w2 hww => hws w2 (List.mem_cons_of_mem _ hww))]
      simp [flatWords, List.append_assoc]

theorem foldLinesLoop_width (pfx : GoStr) (ws : List GoStr) (line : GoStr) (len : Nat)
    (hlen : len = line.length)
    (hws : ∀ w ∈ ws, ' ' ∉ w)
    (hline : line.length ≤ 78 ∨ line = pfx ∨
      ∃ w, line = w ++ [' '] ∧ ' ' ∉ w ∧ 78 < w.length + 1) :
    ∀ l ∈ foldLinesLoop 78 ws line len,
      l.length ≤ 78 ∨ l = pfx ∨ ∃ w, l = w ++ [' '] ∧ ' ' ∉ w ∧ 78 < w.length + 1 := by
  induction ws generalizing line len with
  | nil =>
    intro l hl
    simp only [foldLinesLoop, List.mem_singleton] at hl
    subst hl; exact hline
  | cons w ws ih =>
    intro l hl
    simp only [foldLinesLoop] at hl
    split at hl
    · rename_i hfit
      refine ih (line ++ w ++ [' ']) (len + w.length + 1) ?_
        (fun w2 hw2 => hws w2 (List.mem_cons_of_mem _ hw2)) ?_ l hl
      · simp [hlen]; omega
      · left
        simp only [List.length_append, List.length_singleton]
        omega
    · rename_i hfit
      rcases List.mem_cons.1 hl with h | h
      · subst h; exact hline
      · refine ih (w ++ [' ']) (w.length + 1) ?_
          (fun w2 hw2 => hws w2 (List.mem_cons_of_mem _ hw2)) ?_ l h
        · simp
        · by_cases hw78 : w.length + 1 ≤ 78
          · left; simpa using hw78
          · right; right
            exact ⟨w, rfl, hws w (List.mem_cons_self _ _), by omega⟩

theorem flatWords_splitOnSpace (s : GoStr) : flatWords (splitOnSpace s) = s ++ [' '] := by
  induction s with
  | nil => simp [splitOnSpace, flatWords]
  | cons c rest ih =>
    simp only [splitOnSpace]
    by_cases hc : c = ' '
    · rw [if_pos hc]
      subst hc
      simp [flatWords, ih]
    · rw [if_neg hc]
      obtain ⟨w0, ws, hEq⟩ := List.exists_cons_of_ne_nil (splitOnSpace_ne_nil rest)
      rw [hEq]
      rw [hEq] at ih
      simp only [flatWords] at ih ⊢
      simp only [List.cons_append, List.append_assoc] at ih ⊢
      rw [ih]

theorem format_decomp (e : Email) (now : GoStr) :
    Format e now
      = (headerPairs e now).foldr (fun p acc => renderHeader p ++ acc) []
        ++ (e.emailBodies.map
            (renderPart e.encoder (("\r\n--".data) ++ (("=_".data) ++ MessageID e)))).flatten := by
  simp [Format, addHeader_eq, foldl_addBody, headerPairs, List.append_assoc]

theorem foldl_addBodyM (l : List EmailBody) (fe : FormattedEmail) :
    (l.foldl addBodyM fe).buffer = l.foldl (addBody fe.encoder fe.boundary) fe.buffer := by
  induction l generalizing fe with
  | nil => rfl
  | cons b bs ih => simp [List.foldl_cons, ih, addBodyM]

theorem formatrun_fst (e : Email) (now : GoStr) : (FormatRun e now).1 = Format e now := by
  simp only [FormatRun, Format]
  rw [foldl_addBodyM]
  simp [addHeaderM]

/-! ### The claims -/

/-- C1: For every message, `Format` emits the top-level headers in the
fixed order To, Cc, Bcc, From, Subject, Date, Content-Type, MIME-Version
(the order of `headerPairs`), followed by the body parts; and the header
line of a pair is emitted (contributes a non-empty rendering) if and only
if the pair's value is non-empty — in particular an unset Cc or Bcc,
whose comma-join is empty, produces no header line. -/
theorem headers_fixed_order_iff_nonempty (e : Email) (now : GoStr) :
    (Format e now
      = (headerPairs e now).foldr (fun p acc => renderHeader p ++ acc) []
        ++ (e.emailBodies.map
            (renderPart e.encoder (("\r\n--".data) ++ (("=_".data) ++ MessageID e)))).flatten)
    ∧ ∀ p ∈ headerPairs e now, (renderHeader p ≠ [] ↔ p.2 ≠ []) :=
  ⟨format_decomp e now, fun p _ => renderHeader_ne_nil_iff p⟩

/-- Witness for C1 at the §8 example message: the Cc pair is one of the
header pairs, and its rendering is non-empty exactly when its value is. -/
theorem headers_fixed_order_witness :
    ((("Cc".data : GoStr), goJoin exampleEmail.Cc (", ".data))
        ∈ headerPairs exampleEmail exampleNow) ∧
    (renderHeader (("Cc".data), goJoin exampleEmail.Cc (", ".data)) ≠ [] ↔
      goJoin exampleEmail.Cc (", ".data) ≠ []) :=
  ⟨by decide, (headers_fixed_order_iff_nonempty exampleEmail exampleNow).2 _ (by decide)⟩

/-- C2: For every message whose encoder has a (non-empty) label, `Format`
emits the body parts in insertion order, each part consisting exactly of
the boundary marker line `CRLF--<boundary>` plus CRLF, a Content-Type
header carrying the part's mimeType (omitted when empty), a
Content-Transfer-Encoding header carrying the encoder's label, a blank
line, the encoder's output on the part's body text, and a trailing
CRLF. -/
theorem body_parts_in_order_exact_structure (e : Email) (now : GoStr)
    (h : e.encoder.TransferEncodingType ≠ []) :
    Format e now
      = (headerPairs e now).foldr (fun p acc => renderHeader p ++ acc) []
        ++ (e.emailBodies.map (fun b =>
              ("\r\n--".data) ++ (("=_".data) ++ MessageID e) ++ crlf
              ++ (if b.mimeType ≠ [] then
                    foldString 78 (("Content-Type".data) ++ (": ".data)) b.mimeType
                  else [])
              ++ foldString 78 (("Content-Transfer-Encoding".data) ++ (": ".data))
                  e.encoder.TransferEncodingType
              ++ crlf ++ e.encoder.Encode b.bodyText ++ crlf)).flatten := by
  rw [format_decomp]
  have hfun : renderPart e.encoder (("\r\n--".data) ++ (("=_".data) ++ MessageID e))
      = (fun b =>
          ("\r\n--".data) ++ (("=_".data) ++ MessageID e) ++ crlf
          ++ (if b.mimeType ≠ [] then
                foldString 78 (("Content-Type".data) ++ (": ".data)) b.mimeType
              else [])
          ++ foldString 78 (("Content-Transfer-Encoding".data) ++ (": ".data))
              e.encoder.TransferEncodingType
          ++ crlf ++ e.encoder.Encode b.bodyText ++ crlf) := by
    funext b
    simp [renderPart, renderHeader, h, List.append_assoc]
  rw [hfun]

/-- Witness for C2 at the §8 example message, whose quoted-printable
encoder has the non-empty label `quoted-printable`. -/
theorem body_parts_witness :
    (exampleEmail.encoder.TransferEncodingType ≠ []) ∧
    (Format exampleEmail exampleNow
      = (headerPairs exampleEmail exampleNow).foldr (fun p acc => renderHeader p ++ acc) []
        ++ (exampleEmail.emailBodies.map (fun b =>
              ("\r\n--".data) ++ (("=_".data) ++ MessageID exampleEmail) ++ crlf
              ++ (if b.mimeType ≠ [] then
                    foldString 78 (("Content-Type".data) ++ (": ".data)) b.mimeType
                  else [])
              ++ foldString 78 (("Content-Transfer-Encoding".data) ++ (": ".data))
                  exampleEmail.encoder.TransferEncodingType
              ++ crlf ++ exampleEmail.encoder.Encode b.bodyText ++ crlf)).flatten) :=
  ⟨by decide, body_parts_in_order_exact_structure exampleEmail exampleNow (by decide)⟩

/-- C3 (counterexample): the claim as stated is false.  Folding a single
word of length exactly 78 (not longer than the limit) with the prefix
`X: ` emits a continuation line of length 79 — the word plus the trailing
space the folder appends after every word — although no word of the input
is longer than the limit, so the claim's only exception does not apply. -/
theorem folder_line_width_counterexample :
    (foldString 78 ("X: ".data) (List.replicate 78 'x')
      = ("X: ".data) ++ crlf ++ [' '] ++ List.replicate 78 'x' ++ [' '] ++ crlf) ∧
    ((List.replicate 78 'x' ++ [' ']) ∈ foldLines 78 ("X: ".data) (List.replicate 78 'x')) ∧
    ((List.replicate 78 'x' ++ [' ']).length = 79) ∧
    (∀ w ∈ splitOnSpace (List.replicate 78 'x'), w.length ≤ 78) := by decide

/-- C3 (amended): the folder's output is the join of its emitted lines
(leading continuation spaces excluded), and every such line has length at
most 78, except lines consisting of the bare prefix (which can exceed the
limit only when the prefix itself does) and lines consisting of a single
word followed by the folder's trailing space, where the word's length
plus that one space exceeds the limit; words are never split. -/
theorem folder_line_width_amended (pfx s : GoStr) :
    (foldString 78 pfx s = joinFolded (foldLines 78 pfx s)) ∧
    ∀ l ∈ foldLines 78 pfx s,
      l.length ≤ 78 ∨ l = pfx ∨ ∃ w, l = w ++ [' '] ∧ ' ' ∉ w ∧ 78 < w.length + 1 := by
  refine ⟨foldString_eq_joinFolded 78 pfx s, ?_⟩
  exact foldLinesLoop_width pfx (splitOnSpace s) pfx pfx.length rfl
    (fun w hw hsp => (mem_splitOnSpace s w hw ' ' hsp).2 rfl)
    (Or.inr (Or.inl rfl))

/-- Witness for the amended C3 at a concrete folded header line. -/
theorem folder_line_width_witness :
    (("Subject: Hi ".data : GoStr) ∈ foldLines 78 ("Subject: ".data) ("Hi".data)) ∧
    (("Subject: Hi ".data : GoStr).length ≤ 78 ∨
      ("Subject: Hi ".data : GoStr) = ("Subject: ".data) ∨
      ∃ w, ("Subject: Hi ".data : GoStr) = w ++ [' '] ∧ ' ' ∉ w ∧ 78 < w.length + 1) :=
  ⟨by decide, (folder_line_width_amended ("Subject: ".data) ("Hi".data)).2 _ (by decide)⟩

/-- C4: `Format` (and with it the message identifier and boundary token)
is a pure function of the message and the clock reading, so calling it
twice on the same unmutated message with the same simulated clock yields
byte-identical output; and the identifier is the digest of the textual
serialization of the full message state, 40 hexadecimal characters
long. -/
theorem format_deterministic_id_fixed_hex (e : Email) (now : GoStr) :
    (Format e now = Format e now) ∧
    (MessageID e = specDigest (serializeEmail e)) ∧
    ((MessageID e).length = 40) ∧
    ((MessageID e).all isHexDigitChar = true) := by
  refine ⟨rfl, rfl, by simp [MessageID, specDigest], ?_⟩
  simp only [MessageID, specDigest, List.all_eq_true]
  intro c hc
  simp only [List.mem_map, List.mem_range] at hc
  obtain ⟨i, _, rfl⟩ := hc
  have h16 : (serializeEmail e).foldl (fun a c => (a * 131 + c.toNat + 1) % 2 ^ 160) 7
      / 16 ^ (39 - i) % 16 < 16 := Nat.mod_lt _ (by norm_num)
  have hall : ∀ n < 16, isHexDigitChar (hexDigitLower n) = true := by decide
  exact hall _ h16

/-- C5 (counterexample): the claim as stated is false.  Re-joining the
folded output of the value `a  b` (restoring single spaces for the
continuation markers and dropping the final CRLF) yields `a  b ` — the
folder appends a trailing space after the last word and preserves the
internal double space — which is not the whitespace-normalized value
`a b`. -/
theorem folder_rejoin_counterexample :
    specRejoin (foldString 78 [] ("a  b".data)) ≠ normalizeWs ("a  b".data) ∧
    specRejoin (foldString 78 [] ("a  b".data)) = ("a  b ".data) ∧
    normalizeWs ("a  b".data) = ("a b".data) := by decide

/-- C5 (amended): for a prefix and value containing no carriage return,
deleting the `CRLF + space` continuation markers from the folded output
yields the prefix, then the original value with its internal whitespace
preserved exactly (not normalized), then a single trailing space, then
the final CRLF. -/
theorem folder_rejoin_amended (ml : Nat) (pfx v : GoStr)
    (hp : '\r' ∉ pfx) (hv : '\r' ∉ v) :
    deleteMarkers (foldString ml pfx v) = pfx ++ v ++ [' '] ++ crlf := by
  have hws : ∀ w ∈ splitOnSpace v, '\r' ∉ w :=
    fun w hw hr => hv (mem_splitOnSpace v w hw '\r' hr).1
  rw [foldString, deleteMarkers_foldLoop ml _ _ _ hp hws, flatWords_splitOnSpace]
  simp [List.append_assoc]

/-- Witness for the amended C5 at a concrete prefix and value. -/
theorem folder_rejoin_witness :
    ('\r' ∉ ("To: ".data : GoStr)) ∧ ('\r' ∉ ("hello world".data : GoStr)) ∧
    deleteMarkers (foldString 78 ("To: ".data) ("hello world".data))
      = ("To: ".data) ++ ("hello world".data) ++ [' '] ++ crlf :=
  ⟨by decide, by decide, folder_rejoin_amended 78 _ _ (by decide) (by decide)⟩

set_option maxRecDepth 20000 in
/-- C6 (counterexample): the claim as stated is false.  For the §8
example message the output contains none of the exact byte sequences
`To: a@x.com CRLF`, `From: b@x.com CRLF`, `Subject: Hi CRLF`: the header
folder appends a space after the last word of every header value, so each
of these lines carries a trailing space before its CRLF. -/
theorem example_message_counterexample :
    (hasSub ("To: a@x.com\r\n".data) (Format exampleEmail exampleNow) = false) ∧
    (hasSub ("From: b@x.com\r\n".data) (Format exampleEmail exampleNow) = false) ∧
    (hasSub ("Subject: Hi\r\n".data) (Format exampleEmail exampleNow) = false) := by decide

set_option maxRecDepth 20000 in
/-- C6 (amended): for the §8 example message the output contains
`To: a@x.com<space>CRLF`, `From: b@x.com<space>CRLF` and
`Subject: Hi<space>CRLF` (with the folder's trailing space), exactly one
boundary-marker occurrence (one part), whose encoded body is the
unchanged `Hello` (so the decoded body equals `Hello`), preceded by the
blank line, and a `Content-Transfer-Encoding: quoted-printable` header
inside that part. -/
theorem example_message_amended :
    (hasSub ("To: a@x.com \r\n".data) (Format exampleEmail exampleNow) = true) ∧
    (hasSub ("From: b@x.com \r\n".data) (Format exampleEmail exampleNow) = true) ∧
    (hasSub ("Subject: Hi \r\n".data) (Format exampleEmail exampleNow) = true) ∧
    (countSub (("\r\n--=_".data) ++ MessageID exampleEmail)
      (Format exampleEmail exampleNow) = 1) ∧
    (qpEncode ("Hello".data) = ("Hello".data)) ∧
    (hasSub ("\r\n\r\nHello\r\n".data) (Format exampleEmail exampleNow) = true) ∧
    (hasSub ("Content-Transfer-Encoding: quoted-printable \r\n".data)
      (Format exampleEmail exampleNow) = true) := by decide

/-- C7 (counterexample): the claim as stated is false.  Folding the
empty value under the prefix `To: ` does not yield just the prefix and a
CRLF: the word loop runs once on the empty word and appends its trailing
space, so the output is the prefix, one space, then CRLF. -/
theorem fold_empty_value_counterexample :
    foldString 78 ("To: ".data) [] ≠ ("To: ".data) ++ crlf ∧
    foldString 78 ("To: ".data) [] = ("To: ".data) ++ [' '] ++ crlf := by decide

/-- C7 (amended): for every prefix of length at most 77, folding an
empty value string produces a single folded line containing the prefix,
a single trailing space, and the trailing CRLF. -/
theorem fold_empty_value_amended (pfx : GoStr) (h : pfx.length + 1 ≤ 78) :
    foldString 78 pfx [] = pfx ++ [' '] ++ crlf := by
  simp [foldString, splitOnSpace, foldLoop, h]

/-- Witness for the amended C7 at the prefix `To: `. -/
theorem fold_empty_value_witness :
    (("To: ".data : GoStr).length + 1 ≤ 78) ∧
    foldString 78 ("To: ".data) [] = ("To: ".data) ++ [' '] ++ crlf :=
  ⟨by decide, fold_empty_value_amended _ (by decide)⟩

/-- C8: For every message and every transport collaborator, `Send`
passes exactly the sender, the To list and the `Format` output to the
transport, and returns the transport's result verbatim — success exactly
when the transport succeeded, with no retry, wrapping or
classification. -/
theorem send_delegates_verbatim {α ε : Type}
    (sendMail : GoStr → α → GoStr → List GoStr → GoStr → Option ε)
    (e : Email) (addr : GoStr) (a : α) (now : GoStr) :
    (Send sendMail e addr a now = sendMail addr a e.From e.To (Format e now)) ∧
    (Send sendMail e addr a now = none ↔ sendMail addr a e.From e.To (Format e now) = none) :=
  ⟨rfl, Iff.rfl⟩

/-- C9: the statement-by-statement run of `Format` returns the receiver
exactly as it was entered — the To, Cc, Bcc lists, sender, subject,
body-part list and encoder are unchanged (no statement of the method,
including the inner `MessageID` call, writes to the receiver) — and its
buffer is the `Format` output. -/
theorem format_leaves_email_unchanged (e : Email) (now : GoStr) :
    ((FormatRun e now).2 = e) ∧
    ((FormatRun e now).2.To = e.To) ∧ ((FormatRun e now).2.Cc = e.Cc) ∧
    ((FormatRun e now).2.Bcc = e.Bcc) ∧ ((FormatRun e now).2.From = e.From) ∧
    ((FormatRun e now).2.Subject = e.Subject) ∧
    ((FormatRun e now).2.emailBodies = e.emailBodies) ∧
    ((FormatRun e now).2.encoder = e.encoder) ∧
    ((FormatRun e now).1 = Format e now) :=
  ⟨rfl, rfl, rfl, rfl, rfl, rfl, rfl, rfl, formatrun_fst e now⟩

/-- C10: `FormatMailbox` returns the address unchanged when the name is
empty, and otherwise the name followed by the address in angle
brackets. -/
theorem formatMailbox_cases (address name : GoStr) :
    (name = [] → FormatMailbox address name = address) ∧
    (name ≠ [] → FormatMailbox address name
      = name ++ (" <".data) ++ address ++ (">".data)) := by
  constructor <;> intro h <;> simp [FormatMailbox, h]

/-- Witness for C10 at a concrete address with and without a name. -/
theorem formatMailbox_witness :
    (FormatMailbox ("a@x.com".data) [] = ("a@x.com".data)) ∧
    (FormatMailbox ("a@x.com".data) ("Ann".data)
      = ("Ann".data) ++ (" <".data) ++ ("a@x.com".data) ++ (">".data)) :=
  ⟨(formatMailbox_cases ("a@x.com".data) []).1 rfl,
   (formatMailbox_cases ("a@x.com".data) ("Ann".data)).2 (by decide)⟩

end GoEmail
